import Mathlib

/-!
Verification of the RESP codec, keyspace, dispatcher and replication logic of
`app/redis.py`.  Byte strings are modelled as `List Char` (one `Char` per byte;
the payload of the canned RDB file uses code points equal to the byte values).
Fallible Python code (exceptions: `ValueError`, `AssertionError`, `TypeError`,
`NameError`, `IndexError`) is modelled with `Option`, `none` meaning the call
raises.
-/

namespace Redis

/-- The two-byte CRLF delimiter used throughout RESP. -/
def crlf : List Char := ['\r', '\n']

/-- The decimal digit character for `d` (mirrors how Python prints digits). -/
def digitChar (d : Nat) : Char := Char.ofNat (48 + d)

/-- Numeric value of a digit character (mirrors Python `int(c)` on a digit). -/
def digitVal (c : Char) : Nat := c.toNat - 48

/-- Fuel-driven core of decimal printing; structural so the kernel can
evaluate it. -/
def natCharsCore : Nat → Nat → List Char → List Char
  | 0, _, acc => acc
  | fuel + 1, n, acc =>
    if n < 10 then digitChar n :: acc
    else natCharsCore fuel (n / 10) (digitChar (n % 10) :: acc)

/-- Decimal representation of a natural number, as Python `str(n)` produces
for the nonnegative integers appearing in the source. -/
def natChars (n : Nat) : List Char := natCharsCore (n + 1) n []

/-- Python `str.lower` restricted to the ASCII range, which is all the source
ever lowercases. -/
def lowerStr (s : List Char) : List Char := s.map Char.toLower

/-- `str2simple_string` from `app/redis.py`: `+<data>\r\n`. -/
def str2simple_string (data : List Char) : List Char :=
  '+' :: data ++ crlf

/-- `str2bulk` from `app/redis.py`.  A single `None` argument encodes the null
bulk `$-1\r\n`; otherwise the fragments are joined with CRLF and length
prefixed.  (A `None` among several fragments would raise in the source; the
source never makes such a call, and here it contributes an empty fragment.) -/
def str2bulk (data : List (Option (List Char))) : List Char :=
  if data = [none] then ['$', '-', '1', '\r', '\n']
  else
    let dataAsResp := List.intercalate crlf (data.map (fun d => d.getD []))
    '$' :: natChars dataAsResp.length ++ crlf ++ dataAsResp ++ crlf

/-- `str2array` from `app/redis.py`: `*<len>\r\n` followed by each element
encoded by `str2bulk`; a single `None` encodes the null array. -/
def str2array (data : List (Option (List Char))) : List Char :=
  if data = [none] then ['*', '-', '1', '\r', '\n']
  else
    let dataAsResp := (data.map (fun d => str2bulk [d])).flatten
    '*' :: natChars data.length ++ crlf ++ dataAsResp

/-- Hex digit value, as `binascii.unhexlify` reads one character. -/
def hexVal (c : Char) : Nat :=
  if c.isDigit then c.toNat - 48
  else if 'a' ≤ c ∧ c ≤ 'f' then c.toNat - 87
  else if 'A' ≤ c ∧ c ≤ 'F' then c.toNat - 55
  else 0

/-- `binascii.unhexlify`: consecutive pairs of hex digits become bytes. -/
def unhexlify : List Char → List Char
  | h :: l :: rest => Char.ofNat (16 * hexVal h + hexVal l) :: unhexlify rest
  | _ => []

/-- The hex literal of the canned empty RDB payload in `empty_rdb_file`. -/
def rdbHex : List Char :=
  "524544495330303131fa0972656469732d76657205372e322e30fa0a72656469732d62697473c040fa056374696d65c26d08bc65fa08757365642d6d656dc2b0c41000fa08616f662d62617365c000fff06e3bfec0ff5aa2".data

/-- `empty_rdb_file` from `app/redis.py`: `$<len>\r\n` followed by the fixed
payload, with no trailing CRLF. -/
def empty_rdb_file : List Char :=
  let data := unhexlify rdbHex
  '$' :: natChars data.length ++ crlf ++ data

/-- Does the list start with a decimal digit?  Used to model the regex
`[*](\d+)` needing at least one digit after the star. -/
def headDigit : List Char → Bool
  | [] => false
  | c :: _ => c.isDigit

/-- The maximal leading digit run and the remainder (the greedy `\d+`). -/
def takeDigits : List Char → List Char × List Char
  | [] => ([], [])
  | c :: cs =>
    if c.isDigit then ((takeDigits cs).1.cons c, (takeDigits cs).2)
    else ([], c :: cs)

/-- Fuel-driven scan modelling `re.split(r"[*](\d+)", message)`: occurrences
of `*` followed by a digit run split the string, and the digit run itself is
kept as an element (the regex capture group).  Structural on the fuel so that
the kernel can evaluate it; `splitStar` supplies enough fuel. -/
def splitStarFuel : Nat → List Char → List Char → List (List Char)
  | 0, acc, s => [acc.reverse ++ s]
  | _ + 1, acc, [] => [acc.reverse]
  | fuel + 1, acc, c :: cs =>
    if c = '*' ∧ headDigit cs = true then
      acc.reverse :: (takeDigits cs).1 :: splitStarFuel fuel [] (takeDigits cs).2
    else splitStarFuel fuel (c :: acc) cs

/-- `re.split(r"[*](\d+)", s)`. -/
def splitStar (s : List Char) : List (List Char) := splitStarFuel s.length [] s

/-- `re.split("\\r\\n", s)`: split on the literal two-byte CRLF sequence. -/
def splitCRLF : List Char → List (List Char)
  | [] => [[]]
  | [c] => [[c]]
  | c1 :: c2 :: rest =>
    if c1 = '\r' ∧ c2 = '\n' then [] :: splitCRLF rest
    else
      match splitCRLF (c2 :: rest) with
      | [] => [[c1]]
      | p :: ps => (c1 :: p) :: ps

/-- The token-collection loop of `parse_command`: walk the CRLF-split parts
after the first, skip empty parts and `$<len>` length lines, and keep every
other part lowercased. -/
def collectTokens : List (List Char) → List (List Char)
  | [] => []
  | p :: ps =>
    match p with
    | [] => collectTokens ps
    | c :: _ =>
      if c = '$' then collectTokens ps else lowerStr p :: collectTokens ps

/-- The per-piece loop of `parse_command` over the `re.split` result.  The
`Option Nat` state is the Python local `number_of_parts`, unbound (`none`)
until a digit piece assigns it; using it while unbound raises `NameError`,
modelled by `none`.  A count mismatch fails the source's assertion, also
`none`. -/
def processPieces : Option Nat → List (List Char) → Option (List (List (List Char) × Nat))
  | _, [] => some []
  | nOpt, p :: ps =>
    match p with
    | [] => processPieces nOpt ps
    | c :: _ =>
      if c.isDigit then processPieces (some (digitVal c)) ps
      else
        match nOpt with
        | none => none
        | some n =>
          let command := collectTokens ((splitCRLF p).drop 1)
          if command.length = n then
            match processPieces (some n) ps with
            | none => none
            | some rest =>
              some ((command, p.length + 1 + (natChars n).length) :: rest)
          else none

/-- `parse_command` from `app/redis.py`: drop bytes before the first `*`,
split on `*<digits>` frame markers, and decode each frame body; with no `*`,
a buffer starting with `+` or `@` decodes to no commands and anything else
raises `ValueError`. -/
def parse_command (message : List Char) : Option (List (List (List Char) × Nat)) :=
  if message.contains '*' then
    processPieces none (splitStar (message.dropWhile (fun c => c != '*')))
  else if message.head? = some '+' ∨ message.head? = some '@' then some []
  else none

/-- The RESP-array encoding of a command's tokens, as every
`str2array(*tokens)` call site builds it. -/
def encodeCommand (toks : List (List Char)) : List Char :=
  str2array (toks.map some)

/-- Concatenation of the encodings of a list of commands. -/
def encodeCommands : List (List (List Char)) → List Char
  | [] => []
  | c :: L => encodeCommand c ++ encodeCommands L

/-! ### Well-formed tokens and commands

`goodTok` captures the tokens for which the regex-based decoder is exact: a
nonempty token that does not start with `$` (such lines are skipped as length
prefixes), contains no CR or LF (the frame delimiter) and no `*` (the frame
marker).  `goodCmd` additionally bounds the token count by 9, because the
decoder reads only the first digit of the declared element count. -/

def goodTok (t : List Char) : Prop :=
  t ≠ [] ∧ t.head? ≠ some '$' ∧ ∀ c ∈ t, c ≠ '\r' ∧ c ≠ '\n' ∧ c ≠ '*'

instance : DecidablePred goodTok := fun t => by
  unfold goodTok; infer_instance

def goodCmd (c : List (List Char)) : Prop :=
  c.length ≤ 9 ∧ ∀ t ∈ c, goodTok t

instance : DecidablePred goodCmd := fun c => by
  unfold goodCmd; infer_instance

/-- The concatenated bulk encodings of a command's tokens. -/
def bulksOf (toks : List (List Char)) : List Char :=
  (toks.map (fun t => str2bulk [some t])).flatten

/-- The body of an encoded frame: everything after the `*<n>` marker. -/
def bodyOf (toks : List (List Char)) : List Char := crlf ++ bulksOf toks

/-- The pieces `re.split(r"[*](\d+)")` produces after the leading empty
string, for a concatenation of encoded frames. -/
def piecesTail : List (List (List Char)) → List (List Char)
  | [] => []
  | c :: L => natChars c.length :: bodyOf c :: piecesTail L

/-- The CRLF-split parts of one frame body, after the leading empty part. -/
def partsOf : List (List Char) → List (List Char)
  | [] => [[]]
  | t :: ts => ('$' :: natChars t.length) :: t :: partsOf ts

/-! ### Digit and decimal-printing lemmas -/

lemma digitChar_le9 {d : Nat} (h : d ≤ 9) :
    (digitChar d).isDigit = true ∧ digitVal (digitChar d) = d ∧
      digitChar d ≠ '\r' ∧ digitChar d ≠ '\n' ∧ digitChar d ≠ '*' ∧
      digitChar d ≠ '$' := by
  interval_cases d <;> exact ⟨by decide, by decide, by decide, by decide, by decide, by decide⟩

lemma natCharsCore_mem : ∀ fuel n acc,
    (∀ c ∈ acc, ∃ d, d ≤ 9 ∧ c = digitChar d) →
    ∀ c ∈ natCharsCore fuel n acc, ∃ d, d ≤ 9 ∧ c = digitChar d := by
  intro fuel
  induction fuel with
  | zero => intro n acc h c hc; exact h c hc
  | succ fuel ih =>
    intro n acc h c hc
    simp only [natCharsCore] at hc
    split at hc
    · rcases List.mem_cons.mp hc with hc | hc
      · exact ⟨n, by omega, hc⟩
      · exact h c hc
    · refine ih _ _ ?_ c hc
      intro c' hc'
      rcases List.mem_cons.mp hc' with hc' | hc'
      · exact ⟨n % 10, by omega, hc'⟩
      · exact h c' hc'

lemma natChars_mem {n : Nat} {c : Char} (hc : c ∈ natChars n) :
    ∃ d, d ≤ 9 ∧ c = digitChar d :=
  natCharsCore_mem _ _ _ (by intro c h; exact absurd h (List.not_mem_nil c)) c hc

lemma natCharsCore_ne_nil : ∀ fuel n acc, acc ≠ [] → natCharsCore fuel n acc ≠ [] := by
  intro fuel
  induction fuel with
  | zero => intro n acc h; exact h
  | succ fuel ih =>
    intro n acc h
    simp only [natCharsCore]
    split
    · exact List.cons_ne_nil _ _
    · exact ih _ _ (List.cons_ne_nil _ _)

lemma natChars_ne_nil (n : Nat) : natChars n ≠ [] := by
  simp only [natChars, natCharsCore]
  split
  · exact List.cons_ne_nil _ _
  · exact natCharsCore_ne_nil _ _ _ (List.cons_ne_nil _ _)

lemma natChars_lt10 {n : Nat} (h : n < 10) : natChars n = [digitChar n] := by
  simp only [natChars, natCharsCore, if_pos h]

/-! ### `takeDigits` and `splitStarFuel` lemmas -/

lemma takeDigits_append : ∀ d s, (∀ c ∈ d, c.isDigit = true) → headDigit s = false →
    takeDigits (d ++ s) = (d, s) := by
  intro d
  induction d with
  | nil =>
    intro s _ hs
    cases s with
    | nil => rfl
    | cons c cs =>
      simp only [headDigit] at hs
      simp [takeDigits, hs]
  | cons c d ih =>
    intro s h hs
    have hc : c.isDigit = true := h c (List.mem_cons_self c d)
    simp only [List.cons_append, takeDigits, List.append_eq, hc, if_pos,
      ih s (fun c' hc' => h c' (List.mem_cons_of_mem _ hc')) hs]

lemma splitStarFuel_nil : ∀ fuel acc, splitStarFuel fuel acc [] = [acc.reverse] := by
  intro fuel acc
  cases fuel with
  | zero => simp [splitStarFuel]
  | succ fuel => rfl

lemma splitStarFuel_nostar : ∀ p fuel acc s, (∀ c ∈ p, c ≠ '*') → p.length ≤ fuel →
    splitStarFuel fuel acc (p ++ s) =
      splitStarFuel (fuel - p.length) (p.reverse ++ acc) s := by
  intro p
  induction p with
  | nil => intro fuel acc s _ _; simp
  | cons c p ih =>
    intro fuel acc s h hf
    cases fuel with
    | zero => simp at hf
    | succ fuel =>
      have hguard : ¬(c = '*' ∧ headDigit (p ++ s) = true) := by
        rintro ⟨h1, _⟩
        exact h c (List.mem_cons_self c p) h1
      simp only [List.cons_append, splitStarFuel, List.append_eq, if_neg hguard]
      rw [ih fuel (c :: acc) s (fun c' hc' => h c' (List.mem_cons_of_mem _ hc'))
        (by simp at hf ⊢; omega)]
      have e1 : Nat.succ fuel - (c :: p).length = fuel - p.length := by
        simp
      have e2 : (c :: p).reverse ++ acc = p.reverse ++ (c :: acc) := by
        simp
      rw [e1, e2]

/-! ### Structure of the encoders -/

lemma map_some_ne_none_list (toks : List (List Char)) : toks.map some ≠ [none] := by
  intro h
  cases toks with
  | nil => simp at h
  | cons t ts => simp at h

lemma str2bulk_single (t : List Char) :
    str2bulk [some t] = '$' :: (natChars t.length ++ (crlf ++ (t ++ crlf))) := by
  simp [str2bulk, List.intercalate, List.append_assoc]

lemma encodeCommand_eq (toks : List (List Char)) :
    encodeCommand toks = '*' :: (natChars toks.length ++ (crlf ++ bulksOf toks)) := by
  simp [encodeCommand, str2array, bulksOf, map_some_ne_none_list toks,
    List.map_map, Function.comp_def, List.append_assoc]

lemma mem_bulksOf {toks : List (List Char)} {c : Char} (hc : c ∈ bulksOf toks) :
    ∃ t ∈ toks, c ∈ str2bulk [some t] := by
  simp only [bulksOf, List.mem_flatten, List.mem_map] at hc
  obtain ⟨l, ⟨t, ht, rfl⟩, hcl⟩ := hc
  exact ⟨t, ht, hcl⟩

lemma mem_bulk_cases {t : List Char} {c : Char} (hc : c ∈ str2bulk [some t]) :
    c = '$' ∨ (∃ d, d ≤ 9 ∧ c = digitChar d) ∨ c = '\r' ∨ c = '\n' ∨ c ∈ t := by
  rw [str2bulk_single] at hc
  simp only [crlf, List.mem_cons, List.mem_append, List.not_mem_nil, or_false] at hc
  rcases hc with rfl | hc | (rfl | rfl) | hc | rfl | rfl
  · exact Or.inl rfl
  · exact Or.inr (Or.inl (natChars_mem hc))
  · exact Or.inr (Or.inr (Or.inl rfl))
  · exact Or.inr (Or.inr (Or.inr (Or.inl rfl)))
  · exact Or.inr (Or.inr (Or.inr (Or.inr hc)))
  · exact Or.inr (Or.inr (Or.inl rfl))
  · exact Or.inr (Or.inr (Or.inr (Or.inl rfl)))

lemma bodyOf_no_star {toks : List (List Char)} (h : ∀ t ∈ toks, goodTok t) :
    ∀ c ∈ bodyOf toks, c ≠ '*' := by
  intro c hc
  rcases List.mem_append.mp hc with hc | hc
  · simp only [crlf, List.mem_cons, List.not_mem_nil, or_false] at hc
    rcases hc with rfl | rfl <;> decide
  · obtain ⟨t, ht, hct⟩ := mem_bulksOf hc
    rcases mem_bulk_cases hct with rfl | ⟨d, hd, rfl⟩ | rfl | rfl | hct
    · decide
    · exact (digitChar_le9 hd).2.2.2.2.1
    · decide
    · decide
    · exact ((h t ht).2.2 c hct).2.2

/-! ### `splitCRLF` structure lemmas -/

lemma splitCRLF_ne_nil : ∀ s, splitCRLF s ≠ [] := by
  intro s
  match s with
  | [] => simp [splitCRLF]
  | [c] => simp [splitCRLF]
  | c1 :: c2 :: rest =>
    simp only [splitCRLF]
    split
    · simp
    · split <;> simp

lemma splitCRLF_crlf (s : List Char) : splitCRLF (crlf ++ s) = [] :: splitCRLF s := by
  show splitCRLF ('\r' :: '\n' :: s) = _
  simp [splitCRLF]

lemma splitCRLF_append : ∀ (t s p : List Char) (ps : List (List Char)),
    (∀ c ∈ t, c ≠ '\r') → splitCRLF s = p :: ps →
    splitCRLF (t ++ s) = (t ++ p) :: ps := by
  intro t
  induction t with
  | nil => intro s p ps _ h; simpa using h
  | cons c t ih =>
    intro s p ps h hs
    have hc : c ≠ '\r' := h c (List.mem_cons_self c t)
    have htail := ih s p ps (fun c' hc' => h c' (List.mem_cons_of_mem _ hc')) hs
    rcases ht : t ++ s with _ | ⟨d, u⟩
    · obtain ⟨rfl, rfl⟩ := List.append_eq_nil.mp ht
      simp only [splitCRLF] at hs
      injection hs with h1 h2
      subst h1
      subst h2
      simp [splitCRLF]
    · show splitCRLF (c :: (t ++ s)) = _
      rw [ht]
      have hguard : ¬(c = '\r' ∧ d = '\n') := fun hh => hc hh.1
      simp only [splitCRLF, if_neg hguard]
      rw [← ht, htail]
      simp

lemma splitCRLF_bulks : ∀ toks, (∀ t ∈ toks, goodTok t) →
    splitCRLF (bulksOf toks) = partsOf toks := by
  intro toks
  induction toks with
  | nil => intro _; simp [bulksOf, partsOf, splitCRLF]
  | cons t ts ih =>
    intro h
    have hgood := h t (List.mem_cons_self t ts)
    have h1 : bulksOf (t :: ts) =
        ('$' :: natChars t.length) ++ (crlf ++ (t ++ (crlf ++ bulksOf ts))) := by
      simp [bulksOf, str2bulk_single, List.append_assoc]
    rw [h1]
    have hdollar : ∀ c ∈ '$' :: natChars t.length, c ≠ '\r' := by
      intro c hc
      rcases List.mem_cons.mp hc with rfl | hc
      · decide
      · obtain ⟨d, hd, rfl⟩ := natChars_mem hc
        exact (digitChar_le9 hd).2.2.1
    have htok : ∀ c ∈ t, c ≠ '\r' := fun c hc => (hgood.2.2 c hc).1
    have i2 : splitCRLF (crlf ++ bulksOf ts) = [] :: partsOf ts := by
      rw [splitCRLF_crlf, ih (fun t' ht' => h t' (List.mem_cons_of_mem _ ht'))]
    have i1 : splitCRLF (t ++ (crlf ++ bulksOf ts)) = t :: partsOf ts := by
      have := splitCRLF_append t _ [] (partsOf ts) htok i2
      simpa using this
    have i0 : splitCRLF (crlf ++ (t ++ (crlf ++ bulksOf ts))) =
        [] :: t :: partsOf ts := by
      rw [splitCRLF_crlf, i1]
    have := splitCRLF_append ('$' :: natChars t.length) _ [] (t :: partsOf ts) hdollar i0
    simpa [partsOf] using this

lemma splitCRLF_bodyOf {toks : List (List Char)} (h : ∀ t ∈ toks, goodTok t) :
    splitCRLF (bodyOf toks) = [] :: partsOf toks := by
  rw [bodyOf, splitCRLF_crlf, splitCRLF_bulks toks h]

/-! ### Token collection and piece processing -/

lemma collectTokens_partsOf : ∀ toks, (∀ t ∈ toks, goodTok t) →
    collectTokens (partsOf toks) = toks.map lowerStr := by
  intro toks
  induction toks with
  | nil => intro _; rfl
  | cons t ts ih =>
    intro h
    obtain ⟨hne, hhd, _⟩ := h t (List.mem_cons_self t ts)
    obtain ⟨c, t', rfl⟩ := List.exists_cons_of_ne_nil hne
    have hc : c ≠ '$' := by simpa using hhd
    have ihh := ih (fun u hu => h u (List.mem_cons_of_mem _ hu))
    simp [partsOf, collectTokens, hc, ihh]

lemma processPieces_skip_nil (nOpt : Option Nat) (ps : List (List Char)) :
    processPieces nOpt ([] :: ps) = processPieces nOpt ps := rfl

lemma processPieces_piecesTail : ∀ L (nOpt : Option Nat), (∀ c ∈ L, goodCmd c) →
    processPieces nOpt (piecesTail L) =
      some (L.map (fun c =>
        (c.map lowerStr, (bodyOf c).length + 1 + (natChars c.length).length))) := by
  intro L
  induction L with
  | nil => intro nOpt _; rfl
  | cons c L ih =>
    intro nOpt h
    obtain ⟨hlen, htoks⟩ := h c (List.mem_cons_self c L)
    have hn : natChars c.length = [digitChar c.length] := natChars_lt10 (by omega)
    have hdig := digitChar_le9 (d := c.length) (by omega)
    have hbody : bodyOf c = '\r' :: '\n' :: bulksOf c := rfl
    simp only [piecesTail, List.map_cons]
    rw [hn]
    simp only [processPieces, hdig.1, if_pos, hdig.2.1]
    rw [hbody]
    simp only [processPieces]
    rw [if_neg (by decide : ¬('\r'.isDigit = true))]
    rw [← hbody]
    have hparts : (splitCRLF (bodyOf c)).drop 1 = partsOf c := by
      rw [splitCRLF_bodyOf htoks]; rfl
    rw [hparts, collectTokens_partsOf c htoks]
    have hcnt : (c.map lowerStr).length = c.length := List.length_map _ _
    rw [if_pos hcnt, ih (some c.length) (fun c' hc' => h c' (List.mem_cons_of_mem _ hc'))]
    rw [hn]

/-! ### Splitting a concatenation of encoded frames -/

lemma splitStarFuel_encode : ∀ L fuel (acc : List Char), L ≠ [] →
    (∀ c ∈ L, ∀ t ∈ c, goodTok t) → (encodeCommands L).length ≤ fuel →
    splitStarFuel fuel acc (encodeCommands L) = acc.reverse :: piecesTail L := by
  intro L
  induction L with
  | nil => intro fuel acc h; exact absurd rfl h
  | cons c L ih =>
    intro fuel acc _ h hf
    have htoks : ∀ t ∈ c, goodTok t := h c (List.mem_cons_self c L)
    have henc : encodeCommands (c :: L) =
        '*' :: (natChars c.length ++ (bodyOf c ++ encodeCommands L)) := by
      simp [encodeCommands, encodeCommand_eq, bodyOf, List.append_assoc]
    rw [henc] at hf ⊢
    cases fuel with
    | zero => simp at hf
    | succ fuel =>
      have hdigits : ∀ x ∈ natChars c.length, x.isDigit = true := by
        intro x hx
        obtain ⟨d', hd', rfl⟩ := natChars_mem hx
        exact (digitChar_le9 hd').1
      have hguard : ('*' : Char) = '*' ∧
          headDigit (natChars c.length ++ (bodyOf c ++ encodeCommands L)) = true := by
        refine ⟨rfl, ?_⟩
        obtain ⟨c0, nrest, hn0⟩ := List.exists_cons_of_ne_nil (natChars_ne_nil c.length)
        rw [hn0]
        have : c0.isDigit = true := hdigits c0 (by rw [hn0]; exact List.mem_cons_self _ _)
        simpa [headDigit] using this
      have hbodyhead : headDigit (bodyOf c ++ encodeCommands L) = false := by
        have he : bodyOf c ++ encodeCommands L =
            '\r' :: ('\n' :: (bulksOf c ++ encodeCommands L)) := by
          simp [bodyOf, crlf]
        rw [he]
        rfl
      have hflen : (bodyOf c).length ≤ fuel := by
        simp only [List.length_cons, List.length_append] at hf
        omega
      rw [splitStarFuel, if_pos hguard,
        takeDigits_append _ _ hdigits hbodyhead,
        splitStarFuel_nostar (bodyOf c) fuel [] (encodeCommands L)
          (bodyOf_no_star htoks) hflen]
      cases L with
      | nil =>
        simp [encodeCommands, splitStarFuel_nil, piecesTail]
      | cons c2 L2 =>
        rw [ih (fuel - (bodyOf c).length) ((bodyOf c).reverse ++ [])
          (List.cons_ne_nil c2 L2) (fun x hx => h x (List.mem_cons_of_mem _ hx))
          (by simp only [List.length_cons, List.length_append] at hf; omega)]
        simp [piecesTail]

/-! ### The decoder on encoder output -/

lemma parse_encodeCommands : ∀ L, L ≠ [] → (∀ c ∈ L, goodCmd c) →
    parse_command (encodeCommands L) =
      some (L.map (fun c => (c.map lowerStr, (encodeCommand c).length))) := by
  intro L hL h
  obtain ⟨c, L', rfl⟩ := List.exists_cons_of_ne_nil hL
  have henc : encodeCommands (c :: L') =
      '*' :: (natChars c.length ++ (crlf ++ (bulksOf c ++ encodeCommands L'))) := by
    simp [encodeCommands, encodeCommand_eq, List.append_assoc]
  have hcontains : (encodeCommands (c :: L')).contains '*' = true := by
    rw [henc]; simp [List.contains]
  have hdrop : (encodeCommands (c :: L')).dropWhile (fun x => x != '*') =
      encodeCommands (c :: L') := by
    rw [henc]; rfl
  rw [parse_command, if_pos hcontains, hdrop]
  rw [splitStar, splitStarFuel_encode (c :: L') _ [] hL
    (fun x hx => (h x hx).2) (le_refl _)]
  rw [show ([] : List Char).reverse = [] from rfl, processPieces_skip_nil]
  rw [processPieces_piecesTail (c :: L') none h]
  congr 1
  apply List.map_congr_left
  intro x hx
  have : (encodeCommand x).length =
      (bodyOf x).length + 1 + (natChars x.length).length := by
    rw [encodeCommand_eq]
    simp only [bodyOf, List.length_cons, List.length_append]
    omega
  rw [this]

lemma encodeCommands_length : ∀ L,
    (L.map (fun c => (encodeCommand c).length)).sum = (encodeCommands L).length := by
  intro L
  induction L with
  | nil => rfl
  | cons c L ih => simp [encodeCommands, List.length_append, ih]

/-- A well-formed frame declaring ten or more tokens always fails the
decoder: `int(resp_command[0])` reads a single digit, which can never equal
the collected token count. -/
lemma parse_encode_big : ∀ toks, 10 ≤ toks.length → (∀ t ∈ toks, goodTok t) →
    parse_command (encodeCommand toks) = none := by
  intro toks hlen htoks
  have henc1 : encodeCommand toks = encodeCommands [toks] := by
    simp [encodeCommands]
  rw [henc1]
  have henc : encodeCommands [toks] =
      '*' :: (natChars toks.length ++ (crlf ++ (bulksOf toks ++ encodeCommands []))) := by
    simp [encodeCommands, encodeCommand_eq, List.append_assoc]
  have hcontains : (encodeCommands [toks]).contains '*' = true := by
    rw [henc]; simp [List.contains]
  have hdrop : (encodeCommands [toks]).dropWhile (fun x => x != '*') =
      encodeCommands [toks] := by
    rw [henc]; rfl
  rw [parse_command, if_pos hcontains, hdrop]
  rw [splitStar, splitStarFuel_encode [toks] _ []
    (List.cons_ne_nil toks []) (by simpa using htoks) (le_refl _)]
  rw [show ([] : List Char).reverse = [] from rfl, processPieces_skip_nil]
  simp only [piecesTail]
  obtain ⟨c0, nrest, hn0⟩ := List.exists_cons_of_ne_nil (natChars_ne_nil toks.length)
  obtain ⟨d, hd9, rfl⟩ := natChars_mem (by rw [hn0]; exact List.mem_cons_self _ _)
  rw [hn0]
  simp only [processPieces, (digitChar_le9 hd9).1, if_pos, (digitChar_le9 hd9).2.1]
  have hbody : bodyOf toks = '\r' :: '\n' :: bulksOf toks := rfl
  rw [hbody]
  simp only [processPieces]
  rw [if_neg (by decide : ¬('\r'.isDigit = true))]
  rw [← hbody]
  have hparts : (splitCRLF (bodyOf toks)).drop 1 = partsOf toks := by
    rw [splitCRLF_bodyOf htoks]; rfl
  rw [hparts, collectTokens_partsOf toks htoks]
  rw [if_neg]
  rw [List.length_map]
  omega

/-! ### The keyspace, the dispatcher and the connection loop

`handle_client` (lines 73–158 of `app/redis.py`) is embedded as a fold over
the decoded `(command, message_length)` pairs.  Wall-clock readings
(`datetime.datetime.now()`) and the randomized `master_replid` of `INFO` are
inputs supplied per iteration.  The Python local variable `response`, which
is assigned only in response-producing `match` branches and read back by the
write loop, is part of the state (`none` models it still being unbound, so
that reading it raises `NameError`). -/

/-- `Record` from `app/redis.py`: a stored value and an optional expiry
instant (milliseconds of wall-clock time, as an integer). -/
structure Record where
  value : List Char
  expires_at : Option Int
deriving DecidableEq, Repr

/-- The per-connection mutable data of `handle_client`: the server's
keyspace `self.data` (an insertion-ordered mapping) and the `response`
local variable. -/
structure KState where
  data : List (List Char × Record)
  response : Option (List (List Char))
deriving DecidableEq, Repr

/-- `self.data.get(key)` — `none` when the key is absent. -/
def dictGet : List (List Char × Record) → List Char → Option Record
  | [], _ => none
  | (k, r) :: d, key => if k = key then some r else dictGet d key

/-- `del self.data[key]`. -/
def dictDel : List (List Char × Record) → List Char → List (List Char × Record)
  | [], _ => []
  | (k, r) :: d, key => if k = key then dictDel d key else (k, r) :: dictDel d key

/-- Python `int(...)` on a decimal string token (`none` when `int` raises
`ValueError`). -/
def digitsVal (ds : List Char) : Option Nat :=
  if ds ≠ [] ∧ ds.all Char.isDigit = true then
    some (ds.foldl (fun a c => 10 * a + digitVal c) 0)
  else none

def pyInt (s : List Char) : Option Int :=
  match s with
  | '-' :: rest => (digitsVal rest).map (fun n => -(n : Int))
  | '+' :: rest => (digitsVal rest).map (fun n => (n : Int))
  | _ => (digitsVal s).map (fun n => (n : Int))

/-- Observable I/O of one dispatched command: bytes written (and drained) to
this connection's client writer, and a command handed to `update_replicas`
for fan-out, in program order. -/
inductive Ev where
  | write (bytes : List Char)
  | propagate (command : List (List Char))
deriving DecidableEq, Repr

/-- `update_replicas` from `app/redis.py`: the bytes it writes to each
attached replica's writer for a propagated command. -/
def update_replicas (command : List (List Char)) : List Char :=
  str2array (command.map some)

def wPing : List Char := "ping".data
def wEcho : List Char := "echo".data
def wSet : List Char := "set".data
def wGet : List Char := "get".data
def wInfo : List Char := "info".data
def wReplconf : List Char := "replconf".data
def wPsync : List Char := "psync".data
def wPx : List Char := "px".data
def wDel : List Char := "del".data
def wGetack : List Char := "getack".data
def wListeningPort : List Char := "listening-port".data
def wReplication : List Char := "replication".data

/-- The literal replid line sent in reply to `PSYNC`. -/
def fullresyncLine : List Char :=
  "FULLRESYNC 8371b4fb1155b71f4a04d3e1bc3e18c4a990aeeb 0".data

/-- The `match command` statement of `handle_client`.  `role` is
`self.role`, `now` the wall clock at this iteration, `replid` the 40
random characters `INFO` would draw, `offset` the current `self.offset`.
`none` models an uncaught exception (`int()` failure on a `PX` argument,
unpacking `None` on a `GET` of an absent key, `args[0]` on a bare
`REPLCONF`). -/
def matchCommand (role : List Char) (now : Int) (replid : List Char) (offset : Nat)
    (st : KState) (command : List (List Char)) : Option KState :=
  match command with
  | [] => some st
  | c0 :: args =>
    if c0 = wPing then
      if args = [] then
        some { st with response := some [str2simple_string "PONG".data] }
      else some st
    else if c0 = wEcho then
      match args with
      | [arg] => some { st with response := some [str2bulk [some arg]] }
      | _ => some st
    else if c0 = wSet then
      match args with
      | [key, value, px, ttl] =>
        if px = wPx then
          if dictGet st.data key = none then
            match pyInt ttl with
            | none => none
            | some t =>
              some { st with
                data := st.data ++ [(key, ⟨value, some (now + t)⟩)],
                response := some [str2bulk [some "OK".data]] }
          else some st
        else some st
      | [key, value] =>
        if dictGet st.data key = none then
          some { st with
            data := st.data ++ [(key, ⟨value, none⟩)],
            response := some [str2bulk [some "OK".data]] }
        else some st
      | _ => some st
    else if c0 = wGet then
      match args with
      | [key] =>
        match dictGet st.data key with
        | none => none
        | some r =>
          match r.expires_at with
          | some t =>
            if t < now then
              some { st with
                data := dictDel st.data key,
                response := some [str2bulk [none]] }
            else some { st with response := some [str2bulk [some r.value]] }
          | none => some { st with response := some [str2bulk [some r.value]] }
      | _ => some st
    else if c0 = wInfo then
      match args with
      | [sec] =>
        if sec = wReplication then
          some { st with response := some [str2bulk
            [some ("role:".data ++ role),
             some ("master_replid:".data ++ replid),
             some "master_repl_offset:0".data]] }
        else some st
      | _ => some st
    else if c0 = wReplconf then
      match args with
      | [] => none
      | a0 :: _ =>
        if a0 = wListeningPort then
          some { st with response := some [str2simple_string "OK".data] }
        else if a0 = wGetack then
          some { st with response := some [str2array
            [some "REPLCONF".data, some "ACK".data, some (natChars offset)]] }
        else some st
    else if c0 = wPsync then
      some { st with response := some [str2simple_string fullresyncLine, empty_rdb_file] }
    else some st

/-- One iteration of the `for command, message_length in commands` loop of
`handle_client`: dispatch through the `match`, then either answer the client
and fan out writes (normal connection) or reply only to frames containing
the token `getack` and advance `self.offset` (replica-inbound
connection). -/
def handleCommand (role : List Char) (replica_conn : Bool) (now : Int)
    (replid : List Char) (offset : Nat) (st : KState)
    (frame : List (List Char) × Nat) : Option (Nat × KState × List Ev) :=
  match matchCommand role now replid offset st frame.1 with
  | none => none
  | some st' =>
    if replica_conn = false then
      match st'.response with
      | none => none
      | some resps =>
        match frame.1 with
        | [] => none
        | c0 :: _ =>
          if c0 = wSet ∨ c0 = wDel then
            some (offset, st', resps.map Ev.write ++ [Ev.propagate frame.1])
          else some (offset, st', resps.map Ev.write)
    else
      if frame.1.contains wGetack then
        match st'.response with
        | none => none
        | some [] => none
        | some (r :: _) => some (offset + frame.2, st', [Ev.write r])
      else some (offset + frame.2, st', [])

/-- Per-iteration external inputs: wall clock, `INFO`'s random replid draw,
and the decoded `(command, message_length)` frame. -/
structure Input where
  now : Int
  replid : List Char
  frame : List (List Char) × Nat
deriving DecidableEq, Repr

/-- `handle_client`'s inner loop over the decoded commands of one chunk:
fold `handleCommand`, threading `self.offset` and the state and
concatenating the observable events. -/
def handle_client (role : List Char) (replica_conn : Bool) :
    Nat → KState → List Input → Option (Nat × KState × List Ev)
  | offset, st, [] => some (offset, st, [])
  | offset, st, i :: is =>
    match handleCommand role replica_conn i.now i.replid offset st i.frame with
    | none => none
    | some (offset', st', evs) =>
      match handle_client role replica_conn offset' st' is with
      | none => none
      | some (offset'', st'', evs') => some (offset'', st'', evs ++ evs')

/-- One outer-loop iteration of `handle_client` on a chunk of bytes that
parses completely: decode with `parse_command`, then dispatch each decoded
command in order. -/
def handle_data (role : List Char) (replica_conn : Bool) (now : Int)
    (replid : List Char) (offset : Nat) (st : KState) (data : List Char) :
    Option (Nat × KState × List Ev) :=
  match parse_command data with
  | none => none
  | some cmds =>
    handle_client role replica_conn offset st (cmds.map (fun f => ⟨now, replid, f⟩))

/-- Total declared length of a list of inbound frames. -/
def sumLens (is : List Input) : Nat := (is.map (fun i => i.frame.2)).sum

/-! ### Supporting lemmas about the connection loop -/

lemma handleCommand_replica_offset {role : List Char} {now : Int} {replid : List Char}
    {off : Nat} {st : KState} {f : List (List Char) × Nat} {off' : Nat} {st' : KState}
    {evs : List Ev}
    (h : handleCommand role true now replid off st f = some (off', st', evs)) :
    off' = off + f.2 := by
  unfold handleCommand at h
  split at h
  · exact absurd h (by simp)
  · rw [if_neg (by decide : ¬(true = false))] at h
    split at h
    · split at h
      · exact absurd h (by simp)
      · exact absurd h (by simp)
      · simp only [Option.some.injEq, Prod.mk.injEq] at h
        omega
    · simp only [Option.some.injEq, Prod.mk.injEq] at h
      omega

lemma handle_client_replica_offset {role : List Char} :
    ∀ (is : List Input) (off : Nat) (st : KState) (off' : Nat) (st' : KState)
      (evs : List Ev),
    handle_client role true off st is = some (off', st', evs) →
    off' = off + sumLens is := by
  intro is
  induction is with
  | nil =>
    intro off st off' st' evs h
    simp only [handle_client, Option.some.injEq, Prod.mk.injEq] at h
    simp [sumLens, ← h.1]
  | cons i is ih =>
    intro off st off' st' evs h
    unfold handle_client at h
    cases hc : handleCommand role true i.now i.replid off st i.frame with
    | none => rw [hc] at h; exact absurd h (by simp)
    | some r1 =>
      obtain ⟨o1, s1, e1⟩ := r1
      rw [hc] at h
      dsimp only at h
      cases hr : handle_client role true o1 s1 is with
      | none => rw [hr] at h; exact absurd h (by simp)
      | some r2 =>
        obtain ⟨o2, s2, e2⟩ := r2
        rw [hr] at h
        simp only [Option.some.injEq, Prod.mk.injEq] at h
        have h1 : o1 = off + i.frame.2 := handleCommand_replica_offset hc
        have h2 : o2 = o1 + sumLens is := ih o1 s1 o2 s2 e2 hr
        simp only [sumLens, List.map_cons, List.sum_cons] at *
        omega

/-! ## The claims -/

/-- C1 (counterexample): the codec round-trip does not return the commands
with only the top-level verb lowercased — encoding `ECHO HeLLo` and decoding
yields the argument `hello`, not `HeLLo`. -/
theorem resp_roundtrip_cex :
    parse_command (encodeCommands [["ECHO".data, "HeLLo".data]]) =
      some [(["echo".data, "hello".data], 25)] ∧
    ["echo".data, "hello".data] ≠ ["echo".data, "HeLLo".data] := by
  exact ⟨rfl, by decide⟩

/-- C1 (amended): for every nonempty list of commands whose tokens are
RESP-safe (nonempty, not starting with `$`, free of CR, LF and `*`) and
which have at most 9 tokens each, decoding the concatenated `str2array`
encodings yields the commands in order with every token lowercased, and the
reported consumed bytes are the individual frame lengths, which sum to the
length of the encoded buffer. -/
theorem resp_roundtrip_lowered (L : List (List (List Char))) (hne : L ≠ [])
    (hgood : ∀ c ∈ L, goodCmd c) :
    parse_command (encodeCommands L) =
      some (L.map (fun c => (c.map lowerStr, (encodeCommand c).length))) ∧
    (L.map (fun c => (encodeCommand c).length)).sum = (encodeCommands L).length :=
  ⟨parse_encodeCommands L hne hgood, encodeCommands_length L⟩

/-- C1 (witness): the round-trip theorem instantiated on the pipelined pair
`PING` then `ECHO hi`. -/
theorem resp_roundtrip_lowered_witness :
    parse_command (encodeCommands [["PING".data], ["ECHO".data, "hi".data]]) =
      some ([["PING".data], ["ECHO".data, "hi".data]].map
        (fun c => (c.map lowerStr, (encodeCommand c).length))) ∧
    ([["PING".data], ["ECHO".data, "hi".data]].map
      (fun c => (encodeCommand c).length)).sum =
      (encodeCommands [["PING".data], ["ECHO".data, "hi".data]]).length :=
  resp_roundtrip_lowered [["PING".data], ["ECHO".data, "hi".data]]
    (by decide) (by decide)

/-- C2: in replica-inbound mode the replication offset grows by exactly
`consumed_bytes` of every successfully processed frame (`REPLCONF GETACK`
frames included), and the `REPLCONF ACK` reply written for a `GETACK` frame
carries the offset from before that frame's increment. -/
theorem replica_offset_invariant :
    (∀ (role : List Char) (off : Nat) (st : KState) (is : List Input)
      (off' : Nat) (st' : KState) (evs : List Ev),
      handle_client role true off st is = some (off', st', evs) →
      off' = off + sumLens is) ∧
    (∀ (role : List Char) (now : Int) (replid : List Char) (off : Nat)
      (st : KState) (x : List Char) (len : Nat),
      handleCommand role true now replid off st ([wReplconf, wGetack, x], len) =
        some (off + len,
          { st with response := some [str2array
            [some "REPLCONF".data, some "ACK".data, some (natChars off)]] },
          [Ev.write (str2array
            [some "REPLCONF".data, some "ACK".data, some (natChars off)])])) := by
  constructor
  · intro role off st is off' st' evs h
    exact handle_client_replica_offset is off st off' st' evs h
  · intro role now replid off st x len
    rfl

/-- C2 (witness): a propagated `SET` (31 bytes) followed by
`REPLCONF GETACK *` (37 bytes) leaves the offset at 68. -/
theorem replica_offset_invariant_witness :
    (68 : Nat) = 0 + sumLens
      [⟨0, "".data, ([wSet, "k".data, "v".data], 31)⟩,
       ⟨0, "".data, ([wReplconf, wGetack, ['*']], 37)⟩] :=
  replica_offset_invariant.1 "master".data 0 ⟨[], none⟩
    [⟨0, "".data, ([wSet, "k".data, "v".data], 31)⟩,
     ⟨0, "".data, ([wReplconf, wGetack, ['*']], 37)⟩]
    68
    ⟨[("k".data, ⟨"v".data, none⟩)],
      some [str2array [some "REPLCONF".data, some "ACK".data, some (natChars 31)]]⟩
    [Ev.write (str2array [some "REPLCONF".data, some "ACK".data, some (natChars 31)])]
    rfl

/-- C3 (code bug): `GET` of an absent key raises (`value, ttl =
self.data.get(key)` unpacks `None`), instead of replying with the null bulk
the specification promises; the expired and present paths do behave as
specified. -/
theorem get_absent_key_crashes :
    matchCommand "master".data 0 "".data 0 ⟨[], none⟩ [wGet, "foo".data] = none ∧
    matchCommand "master".data 5 "".data 0
      ⟨[("foo".data, ⟨"bar".data, none⟩)], none⟩ [wGet, "foo".data] =
      some ⟨[("foo".data, ⟨"bar".data, none⟩)], some [str2bulk [some "bar".data]]⟩ ∧
    matchCommand "master".data 5 "".data 0
      ⟨[("foo".data, ⟨"bar".data, some 3⟩)], none⟩ [wGet, "foo".data] =
      some ⟨[], some [str2bulk [none]]⟩ := by
  exact ⟨rfl, rfl, rfl⟩

/-- C4 (code bug): a `SET` whose key already exists sends a reply after all —
the connection re-writes the previous `response` (here the `OK` of the first
`SET`) and still propagates the no-op command, instead of omitting the reply
as specified.  The keyspace is left unchanged. -/
theorem set_existing_key_replays_reply :
    handle_client "master".data false 0 ⟨[], none⟩
      [⟨0, "".data, ([wPing], 14)⟩,
       ⟨0, "".data, ([wSet, "k".data, "v".data], 31)⟩,
       ⟨0, "".data, ([wSet, "k".data, "v".data], 31)⟩] =
      some (0, ⟨[("k".data, ⟨"v".data, none⟩)], some [str2bulk [some "OK".data]]⟩,
        [Ev.write (str2simple_string "PONG".data),
         Ev.write (str2bulk [some "OK".data]),
         Ev.propagate [wSet, "k".data, "v".data],
         Ev.write (str2bulk [some "OK".data]),
         Ev.propagate [wSet, "k".data, "v".data]]) := by
  rfl

/-- C5 (counterexample): the decoder lowercases argument tokens as well —
`SET KEY VaLuE` decodes with the value token `value`, not `VaLuE`. -/
theorem token_case_cex :
    parse_command (encodeCommand ["SET".data, "KEY".data, "VaLuE".data]) =
      some [([wSet, "key".data, "value".data], 33)] ∧
    "value".data ≠ "VaLuE".data := by
  exact ⟨rfl, by decide⟩

/-- C5 (amended): the decoder lowercases every token of a decoded command,
the verb and all arguments alike. -/
theorem tokens_all_lowercased (toks : List (List Char)) (hlen : toks.length ≤ 9)
    (htoks : ∀ t ∈ toks, goodTok t) :
    parse_command (encodeCommand toks) =
      some [(toks.map lowerStr, (encodeCommand toks).length)] := by
  have h := parse_encodeCommands [toks] (by simp)
    (by intro c hc
        rw [List.mem_singleton] at hc
        subst hc
        exact ⟨hlen, htoks⟩)
  simpa [encodeCommands] using h

/-- C5 (witness): `ECHO Mixed` decodes as `echo mixed`. -/
theorem tokens_all_lowercased_witness :
    parse_command (encodeCommand ["ECHO".data, "Mixed".data]) =
      some [(["ECHO".data, "Mixed".data].map lowerStr,
        (encodeCommand ["ECHO".data, "Mixed".data]).length)] :=
  tokens_all_lowercased ["ECHO".data, "Mixed".data] (by decide) (by decide)

/-- C6 (counterexample): propagation is not case-preserving — a client's
`SET Foo BAR` is propagated as the lowercased `set foo bar`, whose RESP
encoding differs from the original frame. -/
theorem propagation_not_case_preserving :
    handle_data "master".data false 0 "".data 0 ⟨[], none⟩
      (encodeCommands [["SET".data, "Foo".data, "BAR".data]]) =
      some (0, ⟨[("foo".data, ⟨"bar".data, none⟩)], some [str2bulk [some "OK".data]]⟩,
        [Ev.write (str2bulk [some "OK".data]),
         Ev.propagate [wSet, "foo".data, "bar".data]]) ∧
    update_replicas [wSet, "foo".data, "bar".data] ≠
      encodeCommand ["SET".data, "Foo".data, "BAR".data] := by
  exact ⟨rfl, by decide⟩

/-- C6 (amended): for every dispatched command whose verb is `set` or `del`
on a non-replica-inbound connection, the client's reply frames are written
(and drained) first and the decoded command is then handed to
`update_replicas`, which writes its `str2array` encoding to every attached
replica. -/
theorem write_propagation_after_reply (role : List Char) (now : Int)
    (replid : List Char) (off : Nat) (st st' : KState) (cmd : List (List Char))
    (len : Nat) (rs : List (List Char))
    (hm : matchCommand role now replid off st cmd = some st')
    (hr : st'.response = some rs)
    (hw : cmd.head? = some wSet ∨ cmd.head? = some wDel) :
    handleCommand role false now replid off st (cmd, len) =
      some (off, st', rs.map Ev.write ++ [Ev.propagate cmd]) ∧
    update_replicas cmd = str2array (cmd.map some) := by
  refine ⟨?_, rfl⟩
  cases cmd with
  | nil => simp at hw
  | cons c0 rest =>
    have hw' : c0 = wSet ∨ c0 = wDel := by simpa using hw
    simp only [handleCommand, hm, hr, if_true]
    rw [if_pos hw']

/-- C6 (witness): a fresh `SET a b` writes the `OK` reply before the
propagation event. -/
theorem write_propagation_after_reply_witness :
    handleCommand "master".data false 0 "".data 0 ⟨[], none⟩
      ([wSet, "a".data, "b".data], 27) =
      some (0, ⟨[("a".data, ⟨"b".data, none⟩)], some [str2bulk [some "OK".data]]⟩,
        [str2bulk [some "OK".data]].map Ev.write ++
          [Ev.propagate [wSet, "a".data, "b".data]]) ∧
    update_replicas [wSet, "a".data, "b".data] =
      str2array ([wSet, "a".data, "b".data].map some) :=
  write_propagation_after_reply "master".data 0 "".data 0 ⟨[], none⟩
    ⟨[("a".data, ⟨"b".data, none⟩)], some [str2bulk [some "OK".data]]⟩
    [wSet, "a".data, "b".data] 27 [str2bulk [some "OK".data]]
    rfl rfl (Or.inl rfl)

/-- C7 (code bug): an unknown command is not silently ignored — the
connection re-writes the previous response (here `+PONG\r\n` a second time)
rather than writing no bytes; with no earlier response it raises
`NameError` instead. -/
theorem unknown_command_replays_reply :
    handle_client "master".data false 0 ⟨[], none⟩
      [⟨0, "".data, ([wPing], 14)⟩, ⟨0, "".data, (["foo".data], 13)⟩] =
      some (0, ⟨[], some [str2simple_string "PONG".data]⟩,
        [Ev.write (str2simple_string "PONG".data),
         Ev.write (str2simple_string "PONG".data)]) ∧
    handle_client "master".data false 0 ⟨[], none⟩
      [⟨0, "".data, (["foo".data], 13)⟩] = none := by
  exact ⟨rfl, rfl⟩

/-- C8: `PSYNC` on a normal connection replies with the fixed
`+FULLRESYNC 8371b4fb1155b71f4a04d3e1bc3e18c4a990aeeb 0\r\n` simple string
immediately followed by the empty-RDB frame `$88\r\n` plus the fixed
88-byte payload, whose last byte is `0xa2` — there is no trailing CRLF. -/
theorem psync_reply (role : List Char) (now : Int) (replid : List Char)
    (off : Nat) (st : KState) (args : List (List Char)) (len : Nat) :
    handleCommand role false now replid off st (wPsync :: args, len) =
      some (off,
        { st with response := some [str2simple_string fullresyncLine, empty_rdb_file] },
        [Ev.write (str2simple_string fullresyncLine), Ev.write empty_rdb_file]) ∧
    str2simple_string fullresyncLine =
      '+' :: ("FULLRESYNC 8371b4fb1155b71f4a04d3e1bc3e18c4a990aeeb 0".data ++ crlf) ∧
    empty_rdb_file = "$88\r\n".data ++ unhexlify rdbHex ∧
    (unhexlify rdbHex).length = 88 ∧
    empty_rdb_file.getLast? = some (Char.ofNat 0xa2) ∧
    Char.ofNat 0xa2 ≠ '\n' := by
  refine ⟨rfl, rfl, by decide, by decide, by decide, by decide⟩

/-- C9: `response` persists across loop iterations — a command the `match`
leaves unanswered (an unknown verb, a `SET` whose key exists, `INFO` on a
section other than `replication`) makes the connection re-write the most
recent response frames (propagating as well when the verb is `set` or
`del`), and raises `NameError` when no earlier command ever assigned
`response`. -/
theorem stale_response_replay :
    (∀ (role : List Char) (now : Int) (replid : List Char) (off : Nat)
      (st : KState) (c0 : List Char) (args : List (List Char)),
      c0 ∉ [wPing, wEcho, wSet, wGet, wInfo, wReplconf, wPsync] →
      matchCommand role now replid off st (c0 :: args) = some st) ∧
    (∀ (role : List Char) (now : Int) (replid : List Char) (off : Nat)
      (st : KState) (k v : List Char),
      (dictGet st.data k).isSome = true →
      matchCommand role now replid off st [wSet, k, v] = some st) ∧
    (∀ (role : List Char) (now : Int) (replid : List Char) (off : Nat)
      (st : KState) (k v t : List Char),
      (dictGet st.data k).isSome = true →
      matchCommand role now replid off st [wSet, k, v, wPx, t] = some st) ∧
    (∀ (role : List Char) (now : Int) (replid : List Char) (off : Nat)
      (st : KState) (sec : List Char),
      sec ≠ wReplication →
      matchCommand role now replid off st [wInfo, sec] = some st) ∧
    (∀ (role : List Char) (now : Int) (replid : List Char) (off : Nat)
      (st : KState) (cmd : List (List Char)) (len : Nat),
      matchCommand role now replid off st cmd = some st →
      st.response = none →
      handleCommand role false now replid off st (cmd, len) = none) ∧
    (∀ (role : List Char) (now : Int) (replid : List Char) (off : Nat)
      (st : KState) (c0 : List Char) (args : List (List Char)) (len : Nat)
      (rs : List (List Char)),
      matchCommand role now replid off st (c0 :: args) = some st →
      st.response = some rs →
      handleCommand role false now replid off st (c0 :: args, len) =
        some (off, st, rs.map Ev.write ++
          (if c0 = wSet ∨ c0 = wDel then [Ev.propagate (c0 :: args)] else []))) := by
  refine ⟨?_, ?_, ?_, ?_, ?_, ?_⟩
  · intro role now replid off st c0 args h
    simp only [List.mem_cons, List.not_mem_nil, or_false, not_or] at h
    obtain ⟨h1, h2, h3, h4, h5, h6, h7⟩ := h
    simp only [matchCommand, if_neg h1, if_neg h2, if_neg h3, if_neg h4,
      if_neg h5, if_neg h6, if_neg h7]
  · intro role now replid off st k v h
    have hne : ¬(dictGet st.data k = none) := by
      intro e; rw [e] at h; simp at h
    simp only [matchCommand, if_true]
    rw [if_neg hne, if_neg (show ¬(wSet = wPing) by decide),
      if_neg (show ¬(wSet = wEcho) by decide)]
  · intro role now replid off st k v t h
    have hne : ¬(dictGet st.data k = none) := by
      intro e; rw [e] at h; simp at h
    simp only [matchCommand, if_true]
    rw [if_neg hne, if_neg (show ¬(wSet = wPing) by decide),
      if_neg (show ¬(wSet = wEcho) by decide)]
  · intro role now replid off st sec h
    simp only [matchCommand, if_true]
    rw [if_neg h, if_neg (show ¬(wInfo = wPing) by decide),
      if_neg (show ¬(wInfo = wEcho) by decide),
      if_neg (show ¬(wInfo = wSet) by decide),
      if_neg (show ¬(wInfo = wGet) by decide)]
  · intro role now replid off st cmd len hm hresp
    simp only [handleCommand, hm, hresp, if_true]
  · intro role now replid off st c0 args len rs hm hresp
    simp only [handleCommand, hm, hresp, if_true]
    split <;> simp

/-- C9 (witness): with `+PONG\r\n` stored as the previous response, the
unknown command `foo` re-writes it. -/
theorem stale_response_replay_witness :
    handleCommand "master".data false 0 "".data 0
      ⟨[], some [str2simple_string "PONG".data]⟩ (["foo".data], 13) =
      some (0, ⟨[], some [str2simple_string "PONG".data]⟩,
        [str2simple_string "PONG".data].map Ev.write ++
          (if "foo".data = wSet ∨ "foo".data = wDel
           then [Ev.propagate ["foo".data]] else [])) :=
  stale_response_replay.2.2.2.2.2 "master".data 0 "".data 0
    ⟨[], some [str2simple_string "PONG".data]⟩ "foo".data [] 13
    [str2simple_string "PONG".data]
    (stale_response_replay.1 "master".data 0 "".data 0
      ⟨[], some [str2simple_string "PONG".data]⟩ "foo".data [] (by decide))
    rfl

/-- C10: `int(resp_command[0])` reads only the first digit of the declared
element count, so every well-formed frame declaring ten or more tokens fails
the decoder's count assertion and `parse_command` raises. -/
theorem multi_digit_count_fails (toks : List (List Char))
    (hlen : 10 ≤ toks.length) (htoks : ∀ t ∈ toks, goodTok t) :
    parse_command (encodeCommand toks) = none :=
  parse_encode_big toks hlen htoks

/-- C10 (witness): a ten-token frame fails to decode. -/
theorem multi_digit_count_fails_witness :
    parse_command (encodeCommand ["a".data, "b".data, "c".data, "d".data,
      "e".data, "f".data, "g".data, "h".data, "i".data, "j".data]) = none :=
  multi_digit_count_fails ["a".data, "b".data, "c".data, "d".data, "e".data,
    "f".data, "g".data, "h".data, "i".data, "j".data] (by decide) (by decide)

end Redis
